import Mathlib

/-!
Verification of the edgebreaker traversal valence decoder
(compression/mesh/mesh_edgebreaker_traversal_valence_decoder.h).

The decoder state is embedded as a Lean structure; the external
collaborators (base traversal decoder, bitstream reads, corner table)
are modelled at their interface boundary, as tuples of call outcomes
or function records, so every member function of the class becomes a
pure Lean function from (state, outcomes) to (result, state).
-/

namespace Draco

/-- Modelled from the spec: the one-byte mode selector value meaning
valence range 2..7, the only supported mode. The defining enum lives in
a shared header outside this core; the spec names its value as 0. -/
def EDGEBREAKER_VALENCE_MODE_2_7 : Int := 0

/-- Modelled from the spec: topology operation kind C. The five
edgebreaker kinds C, S, L, R, E are integer tags from a shared header
outside this core; the development relies only on the tags being
pairwise distinct and distinct from the -1 sentinel, which the codec's
bit patterns (0, 1, 3, 5, 7) satisfy. -/
def TOPOLOGY_C : Int := 0

/-- Modelled from the spec: topology operation kind S (split). -/
def TOPOLOGY_S : Int := 1

/-- Modelled from the spec: topology operation kind L. -/
def TOPOLOGY_L : Int := 3

/-- Modelled from the spec: topology operation kind R. -/
def TOPOLOGY_R : Int := 5

/-- Modelled from the spec: topology operation kind E (end). -/
def TOPOLOGY_E : Int := 7

/-- Modelled from the spec: the fixed table mapping a per-context local
symbol code to a topology kind (shared header, outside this core). -/
def edge_breaker_symbol_to_topology_id : List Int :=
  [TOPOLOGY_C, TOPOLOGY_R, TOPOLOGY_L, TOPOLOGY_E, TOPOLOGY_S]

/-- External collaborator interface: the corner table, exposing the
Next, Previous and Vertex lookups the decoder consumes. Corners and
vertices are dense integer indices. -/
structure CornerTable where
  Next : Nat → Nat
  Previous : Nat → Nat
  Vertex : Nat → Nat

/-- The mutable state of MeshEdgeBreakerTraversalValenceDecoder: the
encoded-vertex count, the per-vertex valence table, the last decoded
symbol, the active context (-1 meaning none), the valence clamping
bounds, and the per-context symbol queues with their cursors. The
corner-table pointer stored by Init is modelled by passing the corner
table as an argument where it is used. -/
structure ValenceDecoder where
  num_vertices : Int
  vertex_valences : List Int
  last_symbol : Int
  active_context : Int
  min_valence : Int
  max_valence : Int
  context_symbols : List (List Nat)
  context_counters : List Int

/-- The constructor's initial state: zero vertices, empty valence table,
last symbol and active context at the -1 sentinel, valence bounds 2 and
7, no context queues. -/
def initDecoder : ValenceDecoder :=
  { num_vertices := 0
    vertex_valences := []
    last_symbol := -1
    active_context := -1
    min_valence := 2
    max_valence := 7
    context_symbols := []
    context_counters := [] }

/-- SetNumEncodedVertices: records the encoded-vertex count. -/
def SetNumEncodedVertices (d : ValenceDecoder) (n : Int) : ValenceDecoder :=
  { d with num_vertices := n }

/-- std::vector resize with a fill value: truncate when shrinking, pad
with the fill value when growing. -/
def resizeList (l : List Int) (n : Nat) (v : Int) : List Int :=
  if n ≤ l.length then l.take n else l ++ List.replicate (n - l.length) v

/-- Outcomes of the external read primitives consumed by Start, in call
order: the base decoder's own header parse, the fixed-width int32 read
of the split-symbol count, the int8 read of the mode byte, then one
varint read and one bulk DecodeSymbols call per context. Each Bool
mirrors the C++ success return value; the paired payload is whatever
the call left in its out-parameter (arbitrary junk when the call
failed, since the source never inspects the flag of the last two
primitives). -/
structure StartEnv where
  baseStartOk : Bool
  splitRead : Option Int
  modeRead : Option Int
  varintReads : List (Bool × Nat)
  symbolReads : List (Bool × List Nat)

/-- One iteration of the per-context loop in Start: read the varint
count (the source ignores the success flag), and when the count is
nonzero resize that context's queue to the count, bulk-decode into it
(success flag again ignored; the queue ends up holding the first count
values the primitive wrote, zero where it wrote nothing), and set the
cursor to the count. A zero count leaves the freshly resized empty
queue and zero cursor. -/
def contextEntry (env : StartEnv) (i : Nat) : List Nat × Int :=
  let n := (env.varintReads.getD i (true, 0)).2
  if 0 < n then
    ((List.range n).map (fun j => ((env.symbolReads.getD i (true, [])).2).getD j 0),
     (n : Int))
  else
    ([], 0)

/-- MeshEdgeBreakerTraversalValenceDecoder::Start, returning the C++
bool together with the mutated object state. Note the source checks
the base parse, the int32 read and the mode byte, but never the
outcomes of the per-context varint and bulk symbol reads. -/
def Start (d : ValenceDecoder) (env : StartEnv) : Bool × ValenceDecoder :=
  if env.baseStartOk = false then (false, d)
  else
    match env.splitRead with
    | none => (false, d)
    | some num_split_symbols =>
      let d1 : ValenceDecoder :=
        { d with
          num_vertices := d.num_vertices + num_split_symbols
          vertex_valences :=
            resizeList d.vertex_valences (d.num_vertices + num_split_symbols).toNat 0 }
      match env.modeRead with
      | none => (false, d1)
      | some mode =>
        if mode = EDGEBREAKER_VALENCE_MODE_2_7 then
          let d2 : ValenceDecoder := { d1 with min_valence := 2, max_valence := 7 }
          let K := (d2.max_valence - d2.min_valence + 1).toNat
          (true,
           { d2 with
             context_symbols := (List.range K).map (fun i => (contextEntry env i).1)
             context_counters := (List.range K).map (fun i => (contextEntry env i).2) })
        else (false, d1)

/-- MeshEdgeBreakerTraversalValenceDecoder::DecodeSymbol. The base
decoder's direct bitstream decode (taken when no context is active) is
an external collaborator, passed in as fallback. Queue and mapping
indexing is unchecked in the source; the model reads a default through
getD where the source would read out of range. -/
def DecodeSymbol (d : ValenceDecoder) (fallback : Int) : Int × ValenceDecoder :=
  if d.active_context ≠ -1 then
    let c := d.active_context.toNat
    let cnt := d.context_counters.getD c 0 - 1
    let symbol_id := (d.context_symbols.getD c []).getD cnt.toNat 0
    let ls := edge_breaker_symbol_to_topology_id.getD symbol_id 0
    (ls, { d with context_counters := d.context_counters.set c cnt, last_symbol := ls })
  else
    (fallback, { d with last_symbol := fallback })

/-- One += on an entry of the valence table (index unchecked in the
source; out of range the model leaves the list unchanged). -/
def bumpValence (l : List Int) (i : Nat) (k : Int) : List Int :=
  l.set i (l.getD i 0 + k)

/-- MeshEdgeBreakerTraversalValenceDecoder::NewActiveCornerReached:
update the valences of the vertices at the corner and its two face
neighbours according to the last decoded symbol, then recompute the
active context from the clamped valence of the next corner's vertex. -/
def NewActiveCornerReached (d : ValenceDecoder) (ct : CornerTable) (corner : Nat) :
    ValenceDecoder :=
  let next := ct.Next corner
  let prev := ct.Previous corner
  let vv0 := d.vertex_valences
  let vv :=
    if d.last_symbol = TOPOLOGY_C ∨ d.last_symbol = TOPOLOGY_S then
      bumpValence (bumpValence vv0 (ct.Vertex next) 1) (ct.Vertex prev) 1
    else if d.last_symbol = TOPOLOGY_R then
      bumpValence (bumpValence (bumpValence vv0 (ct.Vertex corner) 1)
        (ct.Vertex next) 1) (ct.Vertex prev) 2
    else if d.last_symbol = TOPOLOGY_L then
      bumpValence (bumpValence (bumpValence vv0 (ct.Vertex corner) 1)
        (ct.Vertex next) 2) (ct.Vertex prev) 1
    else if d.last_symbol = TOPOLOGY_E then
      bumpValence (bumpValence (bumpValence vv0 (ct.Vertex corner) 2)
        (ct.Vertex next) 2) (ct.Vertex prev) 2
    else vv0
  let active_valence := vv.getD (ct.Vertex next) 0
  let clamped_valence :=
    if active_valence < d.min_valence then d.min_valence
    else if active_valence > d.max_valence then d.max_valence
    else active_valence
  { d with
    vertex_valences := vv
    active_context := clamped_valence - d.min_valence }

/-- MeshEdgeBreakerTraversalValenceDecoder::MergeVertices: add the
source vertex's valence into the destination vertex's valence. -/
def MergeVertices (d : ValenceDecoder) (dest source : Nat) : ValenceDecoder :=
  { d with
    vertex_valences :=
      bumpValence d.vertex_valences dest (d.vertex_valences.getD source 0) }

/-- The valence recorded for vertex i (0 outside the table). -/
def valAt (d : ValenceDecoder) (i : Nat) : Int := d.vertex_valences.getD i 0

/-! Helper lemmas about list reads and writes. -/

theorem getD_set_self (l : List Int) (i : Nat) (x : Int) (h : i < l.length) :
    (l.set i x).getD i 0 = x := by
  rw [List.getD_eq_getElem?_getD, List.getElem?_set_self h]
  rfl

theorem getD_set_ne (l : List Int) (i j : Nat) (x : Int) (h : i ≠ j) :
    (l.set i x).getD j 0 = l.getD j 0 := by
  rw [List.getD_eq_getElem?_getD, List.getElem?_set_ne h, ← List.getD_eq_getElem?_getD]

theorem bumpValence_length (l : List Int) (i : Nat) (k : Int) :
    (bumpValence l i k).length = l.length := by
  simp [bumpValence]

theorem getD_bump_self (l : List Int) (i : Nat) (k : Int) (h : i < l.length) :
    (bumpValence l i k).getD i 0 = l.getD i 0 + k :=
  getD_set_self l i (l.getD i 0 + k) h

theorem getD_bump_ne (l : List Int) (i j : Nat) (k : Int) (h : i ≠ j) :
    (bumpValence l i k).getD j 0 = l.getD j 0 :=
  getD_set_ne l i j (l.getD i 0 + k) h

theorem getD_bump_mono (l : List Int) (i : Nat) (k : Int) (hk : 0 ≤ k) (j : Nat) :
    l.getD j 0 ≤ (bumpValence l i k).getD j 0 := by
  by_cases hij : i = j
  · subst hij
    by_cases hl : i < l.length
    · rw [getD_bump_self l i k hl]
      omega
    · rw [bumpValence, List.set_eq_of_length_le (by omega)]
  · rw [getD_bump_ne l i j k hij]

theorem getD_replicate_zero (m k : Nat) : (List.replicate m (0 : Int)).getD k 0 = 0 := by
  rw [List.getD_eq_getElem?_getD]
  by_cases h : k < m
  · rw [List.getElem?_eq_getElem (by simpa using h)]
    simp
  · rw [List.getElem?_eq_none (by simpa using h)]
    rfl

theorem getD_map_range {α : Type} (f : Nat → α) (K i : Nat) (d : α) :
    ((List.range K).map f).getD i d = if i < K then f i else d := by
  rw [List.getD_eq_getElem?_getD, List.getElem?_map]
  by_cases h : i < K
  · rw [List.getElem?_range h]
    simp [h]
  · rw [List.getElem?_eq_none (by simpa using h)]
    simp [h]

theorem resizeList_nil (m : Nat) (v : Int) : resizeList [] m v = List.replicate m v := by
  rcases Nat.eq_zero_or_pos m with h | h
  · subst h
    simp [resizeList]
  · rw [resizeList, if_neg (by simp; omega)]
    simp

/-! Facts about the state Start produces. -/

theorem start_valAt_zero (n : Int) (env : StartEnv) (k : Nat) :
    valAt ((Start (SetNumEncodedVertices initDecoder n) env).2) k = 0 := by
  rcases env with ⟨b, sr, mr, vr, sy⟩
  cases b <;> rcases sr with _ | s <;> rcases mr with _ | m <;>
    simp [Start, valAt, initDecoder, SetNumEncodedVertices, resizeList_nil,
      getD_replicate_zero]
  all_goals
    split <;>
      simp [valAt, resizeList_nil, getD_replicate_zero]

/-- C6: MergeVertices adds the source vertex's valence into the
destination vertex's valence and changes nothing else: any other
vertex's valence, the table length, the context queues and cursors, the
active context, the last symbol, the vertex count and the valence
bounds are all unchanged. -/
theorem mergeVertices_frame (d : ValenceDecoder) (dest source : Nat)
    (hd : dest < d.vertex_valences.length) (_hs : source < d.vertex_valences.length) :
    valAt (MergeVertices d dest source) dest = valAt d dest + valAt d source ∧
    (∀ v : Nat, v ≠ dest → valAt (MergeVertices d dest source) v = valAt d v) ∧
    (MergeVertices d dest source).vertex_valences.length = d.vertex_valences.length ∧
    (MergeVertices d dest source).context_symbols = d.context_symbols ∧
    (MergeVertices d dest source).context_counters = d.context_counters ∧
    (MergeVertices d dest source).active_context = d.active_context ∧
    (MergeVertices d dest source).last_symbol = d.last_symbol ∧
    (MergeVertices d dest source).num_vertices = d.num_vertices ∧
    (MergeVertices d dest source).min_valence = d.min_valence ∧
    (MergeVertices d dest source).max_valence = d.max_valence := by
  refine ⟨getD_bump_self _ _ _ hd, fun v hv => getD_bump_ne _ _ _ _ (fun h => hv h.symm),
    bumpValence_length _ _ _, rfl, rfl, rfl, rfl, rfl, rfl, rfl⟩

/-- C6 witness: merging vertex 1 into vertex 0 on the table [3, 4]. -/
theorem mergeVertices_frame_witness :
    valAt (MergeVertices { initDecoder with vertex_valences := [3, 4] } 0 1) 0 =
        valAt { initDecoder with vertex_valences := [3, 4] } 0 +
          valAt { initDecoder with vertex_valences := [3, 4] } 1 ∧
    valAt (MergeVertices { initDecoder with vertex_valences := [3, 4] } 0 1) 1 =
        valAt { initDecoder with vertex_valences := [3, 4] } 1 :=
  ⟨(mergeVertices_frame { initDecoder with vertex_valences := [3, 4] } 0 1
      (by decide) (by decide)).1,
   (mergeVertices_frame { initDecoder with vertex_valences := [3, 4] } 0 1
      (by decide) (by decide)).2.1 1 (by decide)⟩

/-- C8: for any mode byte other than EDGEBREAKER_VALENCE_MODE_2_7,
Start fails and the per-context symbol-queue collection (and the cursor
collection) stays empty, as it was in the freshly constructed decoder. -/
theorem start_bad_mode_no_contexts (n m : Int) (env : StartEnv)
    (hmode : env.modeRead = some m) (hne : m ≠ EDGEBREAKER_VALENCE_MODE_2_7) :
    (Start (SetNumEncodedVertices initDecoder n) env).1 = false ∧
    (Start (SetNumEncodedVertices initDecoder n) env).2.context_symbols = [] ∧
    (Start (SetNumEncodedVertices initDecoder n) env).2.context_counters = [] := by
  rcases env with ⟨b, sr, mr, vr, sy⟩
  simp only at hmode
  subst hmode
  cases b <;> rcases sr with _ | s <;>
    simp [Start, initDecoder, SetNumEncodedVertices, hne]

/-- C8 witness: mode byte 1 makes Start fail with no context queues. -/
theorem start_bad_mode_no_contexts_witness :
    (Start (SetNumEncodedVertices initDecoder 0)
        { baseStartOk := true, splitRead := some 0, modeRead := some 1,
          varintReads := [], symbolReads := [] }).1 = false ∧
    (Start (SetNumEncodedVertices initDecoder 0)
        { baseStartOk := true, splitRead := some 0, modeRead := some 1,
          varintReads := [], symbolReads := [] }).2.context_symbols = [] :=
  ⟨(start_bad_mode_no_contexts 0 1
      { baseStartOk := true, splitRead := some 0, modeRead := some 1,
        varintReads := [], symbolReads := [] } rfl (by decide)).1,
   (start_bad_mode_no_contexts 0 1
      { baseStartOk := true, splitRead := some 0, modeRead := some 1,
        varintReads := [], symbolReads := [] } rfl (by decide)).2.1⟩

/-- C9: when the base parse succeeds and the split-symbol count is
read, Start sizes the valence table to exactly the encoded-vertex count
plus the split-symbol count, with every entry zero (regardless of what
happens to the mode byte afterwards). -/
theorem start_allocates_valence_table (n s : Int) (env : StartEnv)
    (hbase : env.baseStartOk = true) (hsplit : env.splitRead = some s)
    (hn : 0 ≤ n) (hs : 0 ≤ s) :
    (Start (SetNumEncodedVertices initDecoder n) env).2.vertex_valences =
        List.replicate (n + s).toNat 0 ∧
    ((Start (SetNumEncodedVertices initDecoder n) env).2.vertex_valences.length : Int) =
        n + s ∧
    (∀ k : Nat,
      (Start (SetNumEncodedVertices initDecoder n) env).2.vertex_valences.getD k 0 = 0) := by
  rcases env with ⟨b, sr, mr, vr, sy⟩
  simp only at hbase hsplit
  subst hbase
  subst hsplit
  have hval : (Start (SetNumEncodedVertices initDecoder n)
      { baseStartOk := true, splitRead := some s, modeRead := mr,
        varintReads := vr, symbolReads := sy }).2.vertex_valences =
      List.replicate (n + s).toNat 0 := by
    rcases mr with _ | m <;>
      simp [Start, initDecoder, SetNumEncodedVertices, resizeList_nil]
    split <;> simp [resizeList_nil]
  refine ⟨hval, ?_, ?_⟩
  · rw [hval, List.length_replicate]
    omega
  · intro k
    rw [hval]
    exact getD_replicate_zero _ k

/-- C9 witness: base vertex count 10 and split-symbol count 3 give a
valence table of 13 zero entries. -/
theorem start_allocates_valence_table_witness :
    (Start (SetNumEncodedVertices initDecoder 10)
        { baseStartOk := true, splitRead := some 3, modeRead := some 0,
          varintReads := [], symbolReads := [] }).2.vertex_valences =
      List.replicate 13 0 ∧
    ((Start (SetNumEncodedVertices initDecoder 10)
        { baseStartOk := true, splitRead := some 3, modeRead := some 0,
          varintReads := [], symbolReads := [] }).2.vertex_valences.length : Int) = 13 :=
  ⟨(start_allocates_valence_table 10 3
      { baseStartOk := true, splitRead := some 3, modeRead := some 0,
        varintReads := [], symbolReads := [] } rfl rfl (by decide) (by decide)).1,
   (start_allocates_valence_table 10 3
      { baseStartOk := true, splitRead := some 3, modeRead := some 0,
        varintReads := [], symbolReads := [] } rfl rfl (by decide) (by decide)).2.1⟩

/-- C10: a Start that fails at the mode-byte check is not atomic: it
returns failure, yet the vertex count has already been increased by the
split-symbol count and the valence table resized (zero-filled) to that
total, while the context queues and cursors are still untouched. -/
theorem start_mode_failure_not_atomic (n s m : Int) (env : StartEnv)
    (hbase : env.baseStartOk = true) (hsplit : env.splitRead = some s)
    (hmode : env.modeRead = some m) (hne : m ≠ EDGEBREAKER_VALENCE_MODE_2_7) :
    (Start (SetNumEncodedVertices initDecoder n) env).1 = false ∧
    (Start (SetNumEncodedVertices initDecoder n) env).2.num_vertices = n + s ∧
    (Start (SetNumEncodedVertices initDecoder n) env).2.vertex_valences =
        resizeList [] (n + s).toNat 0 ∧
    (Start (SetNumEncodedVertices initDecoder n) env).2.context_symbols = [] ∧
    (Start (SetNumEncodedVertices initDecoder n) env).2.context_counters = [] := by
  rcases env with ⟨b, sr, mr, vr, sy⟩
  simp only at hbase hsplit hmode
  subst hbase
  subst hsplit
  subst hmode
  simp [Start, initDecoder, SetNumEncodedVertices, hne]

/-- C10 witness: vertex count 10, split count 3, mode byte 1: Start
fails but the vertex count is already 13 and the table has 13 zeros. -/
theorem start_mode_failure_not_atomic_witness :
    (Start (SetNumEncodedVertices initDecoder 10)
        { baseStartOk := true, splitRead := some 3, modeRead := some 1,
          varintReads := [], symbolReads := [] }).1 = false ∧
    (Start (SetNumEncodedVertices initDecoder 10)
        { baseStartOk := true, splitRead := some 3, modeRead := some 1,
          varintReads := [], symbolReads := [] }).2.num_vertices = 13 :=
  ⟨(start_mode_failure_not_atomic 10 3 1
      { baseStartOk := true, splitRead := some 3, modeRead := some 1,
        varintReads := [], symbolReads := [] } rfl rfl rfl (by decide)).1,
   (start_mode_failure_not_atomic 10 3 1
      { baseStartOk := true, splitRead := some 3, modeRead := some 1,
        varintReads := [], symbolReads := [] } rfl rfl rfl (by decide)).2.1⟩

/-- An environment whose first per-context varint read and first bulk
symbol decode both report failure, while the header reads succeed. -/
def envVarintFail : StartEnv :=
  { baseStartOk := true
    splitRead := some 0
    modeRead := some EDGEBREAKER_VALENCE_MODE_2_7
    varintReads := [(false, 1), (true, 0), (true, 0), (true, 0), (true, 0), (true, 0)]
    symbolReads := [(false, [0]), (true, []), (true, []), (true, []), (true, []), (true, [])] }

/-- C1 counterexample: in envVarintFail the first context's varint read
and bulk symbol decode both fail, yet Start returns success: the source
never checks those two return values, so failure of these sub-steps
does not make Start return failure. -/
theorem start_ignores_context_read_failures :
    (envVarintFail.varintReads.getD 0 (true, 0)).1 = false ∧
    (envVarintFail.symbolReads.getD 0 (true, [])).1 = false ∧
    (Start initDecoder envVarintFail).1 = true := by
  refine ⟨rfl, rfl, ?_⟩
  rfl

/-- C1 (amended): Start returns success exactly when the base decoder's
header parse succeeds, the fixed-width split-count read succeeds, and
the mode byte is read and equals EDGEBREAKER_VALENCE_MODE_2_7; the
outcomes of the per-context variable-length count reads and bulk
entropy decodes are never consulted and cannot cause failure. -/
theorem start_success_iff (d : ValenceDecoder) (env : StartEnv) :
    (Start d env).1 = true ↔
      env.baseStartOk = true ∧ env.splitRead.isSome = true ∧
        env.modeRead = some EDGEBREAKER_VALENCE_MODE_2_7 := by
  rcases env with ⟨b, sr, mr, vr, sy⟩
  cases b <;> rcases sr with _ | s <;> rcases mr with _ | m <;>
    simp [Start]
  constructor
  · intro h
    by_contra hne
    simp [if_neg hne] at h
  · intro h
    simp [if_pos h]

/-- The active context set by NewActiveCornerReached is the clamped
updated valence of the next corner's vertex minus the minimum valence
(a definitional reading of the tail of the function). -/
theorem newActiveCorner_active_context_eq (d : ValenceDecoder) (ct : CornerTable)
    (corner : Nat) :
    (NewActiveCornerReached d ct corner).active_context =
      (if valAt (NewActiveCornerReached d ct corner) (ct.Vertex (ct.Next corner)) <
            d.min_valence
        then d.min_valence
        else if d.max_valence <
            valAt (NewActiveCornerReached d ct corner) (ct.Vertex (ct.Next corner))
        then d.max_valence
        else valAt (NewActiveCornerReached d ct corner) (ct.Vertex (ct.Next corner))) -
        d.min_valence := rfl

/-- C4: with the valence bounds 2 and 7, every NewActiveCornerReached
call ends with the active context equal to the clamped updated valence
of the next corner's vertex minus the minimum valence, which always
lies in 0..5 (never -1); updated valence 1 gives context 0 and updated
valence 8 gives context 5. -/
theorem newActiveCorner_context_range (d : ValenceDecoder) (ct : CornerTable)
    (corner : Nat) (hmin : d.min_valence = 2) (hmax : d.max_valence = 7) :
    0 ≤ (NewActiveCornerReached d ct corner).active_context ∧
    (NewActiveCornerReached d ct corner).active_context ≤ 5 ∧
    ((NewActiveCornerReached d ct corner).active_context =
      (if valAt (NewActiveCornerReached d ct corner) (ct.Vertex (ct.Next corner)) < 2
        then 2
        else if 7 < valAt (NewActiveCornerReached d ct corner) (ct.Vertex (ct.Next corner))
        then 7
        else valAt (NewActiveCornerReached d ct corner) (ct.Vertex (ct.Next corner))) - 2) ∧
    (valAt (NewActiveCornerReached d ct corner) (ct.Vertex (ct.Next corner)) = 1 →
      (NewActiveCornerReached d ct corner).active_context = 0) ∧
    (valAt (NewActiveCornerReached d ct corner) (ct.Vertex (ct.Next corner)) = 8 →
      (NewActiveCornerReached d ct corner).active_context = 5) := by
  rw [newActiveCorner_active_context_eq, hmin, hmax]
  generalize valAt (NewActiveCornerReached d ct corner) (ct.Vertex (ct.Next corner)) = a
  refine ⟨?_, ?_, rfl, ?_, ?_⟩ <;> split_ifs <;> omega

/-- Reads of a list after three bumps at pairwise distinct in-range
positions. -/
theorem getD_bump3 (l : List Int) (a b c : Nat) (ka kb kc : Int)
    (hab : a ≠ b) (hac : a ≠ c) (hbc : b ≠ c)
    (ha : a < l.length) (hb : b < l.length) (hc : c < l.length) :
    (bumpValence (bumpValence (bumpValence l a ka) b kb) c kc).getD a 0 =
        l.getD a 0 + ka ∧
    (bumpValence (bumpValence (bumpValence l a ka) b kb) c kc).getD b 0 =
        l.getD b 0 + kb ∧
    (bumpValence (bumpValence (bumpValence l a ka) b kb) c kc).getD c 0 =
        l.getD c 0 + kc := by
  refine ⟨?_, ?_, ?_⟩
  · rw [getD_bump_ne _ _ _ _ (fun h => hac h.symm),
      getD_bump_ne _ _ _ _ (fun h => hab h.symm),
      getD_bump_self _ _ _ ha]
  · rw [getD_bump_ne _ _ _ _ (fun h => hbc h.symm),
      getD_bump_self _ _ _ (by rw [bumpValence_length]; exact hb),
      getD_bump_ne _ _ _ _ hab]
  · rw [getD_bump_self _ _ _ (by rw [bumpValence_length, bumpValence_length]; exact hc),
      getD_bump_ne _ _ _ _ hbc, getD_bump_ne _ _ _ _ hac]

/-- Reads of a list after two bumps at distinct in-range positions. -/
theorem getD_bump2 (l : List Int) (b c : Nat) (kb kc : Int) (hbc : b ≠ c)
    (hb : b < l.length) (hc : c < l.length) :
    (bumpValence (bumpValence l b kb) c kc).getD b 0 = l.getD b 0 + kb ∧
    (bumpValence (bumpValence l b kb) c kc).getD c 0 = l.getD c 0 + kc := by
  refine ⟨?_, ?_⟩
  · rw [getD_bump_ne _ _ _ _ (fun h => hbc h.symm), getD_bump_self _ _ _ hb]
  · rw [getD_bump_self _ _ _ (by rw [bumpValence_length]; exact hc),
      getD_bump_ne _ _ _ _ hbc]

/-- C3: with the three face vertices pairwise distinct and inside the
valence table, NewActiveCornerReached changes the valences of the
vertices of the corner, its next and its previous corner by exactly the
amounts keyed by the last symbol: C and S give next +1 and prev +1 with
the corner unchanged; R gives corner +1, next +1, prev +2; L gives
corner +1, next +2, prev +1; E gives corner +2, next +2, prev +2; any
other last symbol leaves the valence table unchanged. -/
theorem newActiveCorner_valence_increments (d : ValenceDecoder) (ct : CornerTable)
    (corner : Nat)
    (h1 : ct.Vertex corner ≠ ct.Vertex (ct.Next corner))
    (h2 : ct.Vertex corner ≠ ct.Vertex (ct.Previous corner))
    (h3 : ct.Vertex (ct.Next corner) ≠ ct.Vertex (ct.Previous corner))
    (hc : ct.Vertex corner < d.vertex_valences.length)
    (hn : ct.Vertex (ct.Next corner) < d.vertex_valences.length)
    (hp : ct.Vertex (ct.Previous corner) < d.vertex_valences.length) :
    ((d.last_symbol = TOPOLOGY_C ∨ d.last_symbol = TOPOLOGY_S) →
      valAt (NewActiveCornerReached d ct corner) (ct.Vertex corner) =
          valAt d (ct.Vertex corner) ∧
      valAt (NewActiveCornerReached d ct corner) (ct.Vertex (ct.Next corner)) =
          valAt d (ct.Vertex (ct.Next corner)) + 1 ∧
      valAt (NewActiveCornerReached d ct corner) (ct.Vertex (ct.Previous corner)) =
          valAt d (ct.Vertex (ct.Previous corner)) + 1) ∧
    (d.last_symbol = TOPOLOGY_R →
      valAt (NewActiveCornerReached d ct corner) (ct.Vertex corner) =
          valAt d (ct.Vertex corner) + 1 ∧
      valAt (NewActiveCornerReached d ct corner) (ct.Vertex (ct.Next corner)) =
          valAt d (ct.Vertex (ct.Next corner)) + 1 ∧
      valAt (NewActiveCornerReached d ct corner) (ct.Vertex (ct.Previous corner)) =
          valAt d (ct.Vertex (ct.Previous corner)) + 2) ∧
    (d.last_symbol = TOPOLOGY_L →
      valAt (NewActiveCornerReached d ct corner) (ct.Vertex corner) =
          valAt d (ct.Vertex corner) + 1 ∧
      valAt (NewActiveCornerReached d ct corner) (ct.Vertex (ct.Next corner)) =
          valAt d (ct.Vertex (ct.Next corner)) + 2 ∧
      valAt (NewActiveCornerReached d ct corner) (ct.Vertex (ct.Previous corner)) =
          valAt d (ct.Vertex (ct.Previous corner)) + 1) ∧
    (d.last_symbol = TOPOLOGY_E →
      valAt (NewActiveCornerReached d ct corner) (ct.Vertex corner) =
          valAt d (ct.Vertex corner) + 2 ∧
      valAt (NewActiveCornerReached d ct corner) (ct.Vertex (ct.Next corner)) =
          valAt d (ct.Vertex (ct.Next corner)) + 2 ∧
      valAt (NewActiveCornerReached d ct corner) (ct.Vertex (ct.Previous corner)) =
          valAt d (ct.Vertex (ct.Previous corner)) + 2) ∧
    (d.last_symbol ≠ TOPOLOGY_C → d.last_symbol ≠ TOPOLOGY_S →
     d.last_symbol ≠ TOPOLOGY_R → d.last_symbol ≠ TOPOLOGY_L →
     d.last_symbol ≠ TOPOLOGY_E →
      (NewActiveCornerReached d ct corner).vertex_valences = d.vertex_valences) := by
  refine ⟨?_, ?_, ?_, ?_, ?_⟩
  · intro hcs
    have hvv : (NewActiveCornerReached d ct corner).vertex_valences =
        bumpValence (bumpValence d.vertex_valences (ct.Vertex (ct.Next corner)) 1)
          (ct.Vertex (ct.Previous corner)) 1 := by
      simp only [NewActiveCornerReached, if_pos hcs]
    have h := getD_bump2 d.vertex_valences (ct.Vertex (ct.Next corner))
      (ct.Vertex (ct.Previous corner)) 1 1 h3 hn hp
    refine ⟨?_, ?_, ?_⟩
    · simp only [valAt, hvv]
      rw [getD_bump_ne _ _ _ _ (fun h => h2 h.symm), getD_bump_ne _ _ _ _ (fun h => h1 h.symm)]
    · simp only [valAt, hvv]
      exact h.1
    · simp only [valAt, hvv]
      exact h.2
  · intro hr
    have hnotcs : ¬(d.last_symbol = TOPOLOGY_C ∨ d.last_symbol = TOPOLOGY_S) := by
      rw [hr]
      decide
    have hvv : (NewActiveCornerReached d ct corner).vertex_valences =
        bumpValence (bumpValence (bumpValence d.vertex_valences (ct.Vertex corner) 1)
          (ct.Vertex (ct.Next corner)) 1) (ct.Vertex (ct.Previous corner)) 2 := by
      simp only [NewActiveCornerReached, if_neg hnotcs, if_pos hr]
    have h := getD_bump3 d.vertex_valences (ct.Vertex corner) (ct.Vertex (ct.Next corner))
      (ct.Vertex (ct.Previous corner)) 1 1 2 h1 h2 h3 hc hn hp
    exact ⟨by simpa [valAt, hvv] using h.1, by simpa [valAt, hvv] using h.2.1,
      by simpa [valAt, hvv] using h.2.2⟩
  · intro hl
    have hnotcs : ¬(d.last_symbol = TOPOLOGY_C ∨ d.last_symbol = TOPOLOGY_S) := by
      rw [hl]
      decide
    have hnotr : d.last_symbol ≠ TOPOLOGY_R := by
      rw [hl]
      decide
    have hvv : (NewActiveCornerReached d ct corner).vertex_valences =
        bumpValence (bumpValence (bumpValence d.vertex_valences (ct.Vertex corner) 1)
          (ct.Vertex (ct.Next corner)) 2) (ct.Vertex (ct.Previous corner)) 1 := by
      simp only [NewActiveCornerReached, if_neg hnotcs, if_neg hnotr, if_pos hl]
    have h := getD_bump3 d.vertex_valences (ct.Vertex corner) (ct.Vertex (ct.Next corner))
      (ct.Vertex (ct.Previous corner)) 1 2 1 h1 h2 h3 hc hn hp
    exact ⟨by simpa [valAt, hvv] using h.1, by simpa [valAt, hvv] using h.2.1,
      by simpa [valAt, hvv] using h.2.2⟩
  · intro he
    have hnotcs : ¬(d.last_symbol = TOPOLOGY_C ∨ d.last_symbol = TOPOLOGY_S) := by
      rw [he]
      decide
    have hnotr : d.last_symbol ≠ TOPOLOGY_R := by
      rw [he]
      decide
    have hnotl : d.last_symbol ≠ TOPOLOGY_L := by
      rw [he]
      decide
    have hvv : (NewActiveCornerReached d ct corner).vertex_valences =
        bumpValence (bumpValence (bumpValence d.vertex_valences (ct.Vertex corner) 2)
          (ct.Vertex (ct.Next corner)) 2) (ct.Vertex (ct.Previous corner)) 2 := by
      simp only [NewActiveCornerReached, if_neg hnotcs, if_neg hnotr, if_neg hnotl,
        if_pos he]
    have h := getD_bump3 d.vertex_valences (ct.Vertex corner) (ct.Vertex (ct.Next corner))
      (ct.Vertex (ct.Previous corner)) 2 2 2 h1 h2 h3 hc hn hp
    exact ⟨by simpa [valAt, hvv] using h.1, by simpa [valAt, hvv] using h.2.1,
      by simpa [valAt, hvv] using h.2.2⟩
  · intro hnc hns hnr hnl hne
    simp only [NewActiveCornerReached, if_neg (not_or.mpr ⟨hnc, hns⟩), if_neg hnr,
      if_neg hnl, if_neg hne]

/-- A concrete three-corner, three-vertex corner table for witnesses. -/
def ctEx : CornerTable :=
  { Next := fun c => (c + 1) % 3
    Previous := fun c => (c + 2) % 3
    Vertex := fun v => v % 3 }

/-- C3 witness: on the table [0, 0, 0] with last symbol R at corner 0,
the corner, next and previous vertices gain 1, 1 and 2. -/
theorem newActiveCorner_valence_increments_witness :
    valAt (NewActiveCornerReached
        { initDecoder with vertex_valences := [0, 0, 0], last_symbol := TOPOLOGY_R }
        ctEx 0) (ctEx.Vertex 0) =
      valAt { initDecoder with vertex_valences := [0, 0, 0], last_symbol := TOPOLOGY_R }
        (ctEx.Vertex 0) + 1 ∧
    valAt (NewActiveCornerReached
        { initDecoder with vertex_valences := [0, 0, 0], last_symbol := TOPOLOGY_R }
        ctEx 0) (ctEx.Vertex (ctEx.Next 0)) =
      valAt { initDecoder with vertex_valences := [0, 0, 0], last_symbol := TOPOLOGY_R }
        (ctEx.Vertex (ctEx.Next 0)) + 1 ∧
    valAt (NewActiveCornerReached
        { initDecoder with vertex_valences := [0, 0, 0], last_symbol := TOPOLOGY_R }
        ctEx 0) (ctEx.Vertex (ctEx.Previous 0)) =
      valAt { initDecoder with vertex_valences := [0, 0, 0], last_symbol := TOPOLOGY_R }
        (ctEx.Vertex (ctEx.Previous 0)) + 2 :=
  (newActiveCorner_valence_increments
    { initDecoder with vertex_valences := [0, 0, 0], last_symbol := TOPOLOGY_R }
    ctEx 0 (by decide) (by decide) (by decide) (by decide) (by decide) (by decide)).2.1 rfl

/-- C4 witness: at corner 0 of the concrete table the new active
context is in 0..5. -/
theorem newActiveCorner_context_range_witness :
    0 ≤ (NewActiveCornerReached
        { initDecoder with vertex_valences := [0, 0, 0], last_symbol := TOPOLOGY_C }
        ctEx 0).active_context ∧
    (NewActiveCornerReached
        { initDecoder with vertex_valences := [0, 0, 0], last_symbol := TOPOLOGY_C }
        ctEx 0).active_context ≤ 5 :=
  ⟨(newActiveCorner_context_range
      { initDecoder with vertex_valences := [0, 0, 0], last_symbol := TOPOLOGY_C }
      ctEx 0 rfl rfl).1,
   (newActiveCorner_context_range
      { initDecoder with vertex_valences := [0, 0, 0], last_symbol := TOPOLOGY_C }
      ctEx 0 rfl rfl).2.1⟩

/-- C5: with an active context (and the cursor collection long enough
to hold it), DecodeSymbol decrements that context's cursor and no
other, reads the queue entry at the decremented position (the reverse
of storage order), maps it through the symbol-to-topology table,
records the result as the last symbol and returns it, touching neither
the queues nor the valences; with active context -1 it returns and
records the base decoder's fallback symbol and touches nothing else. -/
theorem decodeSymbol_behavior (d : ValenceDecoder) (fallback : Int) :
    (0 ≤ d.active_context →
      d.active_context.toNat < d.context_counters.length →
      ((DecodeSymbol d fallback).2.context_counters.getD d.active_context.toNat 0 =
          d.context_counters.getD d.active_context.toNat 0 - 1 ∧
       (∀ i : Nat, i ≠ d.active_context.toNat →
          (DecodeSymbol d fallback).2.context_counters.getD i 0 =
            d.context_counters.getD i 0) ∧
       (DecodeSymbol d fallback).1 =
          edge_breaker_symbol_to_topology_id.getD
            ((d.context_symbols.getD d.active_context.toNat []).getD
              (d.context_counters.getD d.active_context.toNat 0 - 1).toNat 0) 0 ∧
       (DecodeSymbol d fallback).2.last_symbol = (DecodeSymbol d fallback).1 ∧
       (DecodeSymbol d fallback).2.context_symbols = d.context_symbols ∧
       (DecodeSymbol d fallback).2.vertex_valences = d.vertex_valences ∧
       (DecodeSymbol d fallback).2.active_context = d.active_context)) ∧
    (d.active_context = -1 →
      ((DecodeSymbol d fallback).1 = fallback ∧
       (DecodeSymbol d fallback).2.last_symbol = fallback ∧
       (DecodeSymbol d fallback).2.context_counters = d.context_counters ∧
       (DecodeSymbol d fallback).2.context_symbols = d.context_symbols ∧
       (DecodeSymbol d fallback).2.vertex_valences = d.vertex_valences)) := by
  constructor
  · intro hpos hlen
    have hne : d.active_context ≠ -1 := by omega
    simp only [DecodeSymbol, if_pos hne]
    refine ⟨getD_set_self _ _ _ hlen, fun i hi => getD_set_ne _ _ _ _ (fun h => hi h.symm),
      ?_, ?_, ?_, ?_, ?_⟩ <;> trivial
  · intro hneg
    simp only [DecodeSymbol, hneg]
    simp

/-- A decoder state with active context 0 over one queue [0, 1] whose
cursor is 2, for the C5 witness. -/
def dCtx : ValenceDecoder :=
  { initDecoder with
    active_context := 0
    context_symbols := [[0, 1]]
    context_counters := [2] }

/-- C5 witness: from dCtx the cursor of context 0 drops from 2 to 1 and
the returned symbol is the table image of the queue entry at position
1, the last-stored one. -/
theorem decodeSymbol_behavior_witness :
    (DecodeSymbol dCtx 9).2.context_counters.getD dCtx.active_context.toNat 0 =
      dCtx.context_counters.getD dCtx.active_context.toNat 0 - 1 ∧
    (DecodeSymbol dCtx 9).1 =
      edge_breaker_symbol_to_topology_id.getD
        ((dCtx.context_symbols.getD dCtx.active_context.toNat []).getD
          (dCtx.context_counters.getD dCtx.active_context.toNat 0 - 1).toNat 0) 0 :=
  ⟨((decodeSymbol_behavior dCtx 9).1 (by decide) (by decide)).1,
   ((decodeSymbol_behavior dCtx 9).1 (by decide) (by decide)).2.2.1⟩

/-! Driver operation sequences over the valence table. -/

/-- One driver-issued mutation of the valence table: a corner-visited
callback with some corner table and corner, or a vertex merge. -/
inductive DecOp where
  | cornerReached : CornerTable → Nat → DecOp
  | merge : Nat → Nat → DecOp

/-- Apply one driver operation to the decoder state. -/
def applyOp (d : ValenceDecoder) (op : DecOp) : ValenceDecoder :=
  match op with
  | DecOp.cornerReached ct corner => NewActiveCornerReached d ct corner
  | DecOp.merge dest source => MergeVertices d dest source

/-- Apply a sequence of driver operations in order. -/
def applyOps (d : ValenceDecoder) (ops : List DecOp) : ValenceDecoder :=
  ops.foldl applyOp d

theorem newActiveCorner_valAt_mono (d : ValenceDecoder) (ct : CornerTable)
    (corner j : Nat) :
    valAt d j ≤ valAt (NewActiveCornerReached d ct corner) j := by
  simp only [valAt, NewActiveCornerReached]
  split
  · exact le_trans (getD_bump_mono _ _ _ (by decide) j) (getD_bump_mono _ _ _ (by decide) j)
  · split
    · exact le_trans (le_trans (getD_bump_mono _ _ _ (by decide) j)
        (getD_bump_mono _ _ _ (by decide) j)) (getD_bump_mono _ _ _ (by decide) j)
    · split
      · exact le_trans (le_trans (getD_bump_mono _ _ _ (by decide) j)
          (getD_bump_mono _ _ _ (by decide) j)) (getD_bump_mono _ _ _ (by decide) j)
      · split
        · exact le_trans (le_trans (getD_bump_mono _ _ _ (by decide) j)
            (getD_bump_mono _ _ _ (by decide) j)) (getD_bump_mono _ _ _ (by decide) j)
        · exact le_refl _

theorem merge_valAt_mono (d : ValenceDecoder) (dest source j : Nat)
    (h : ∀ i : Nat, 0 ≤ valAt d i) :
    valAt d j ≤ valAt (MergeVertices d dest source) j :=
  getD_bump_mono _ dest _ (h source) j

theorem applyOp_valAt_mono (d : ValenceDecoder) (op : DecOp) (j : Nat)
    (h : ∀ i : Nat, 0 ≤ valAt d i) :
    valAt d j ≤ valAt (applyOp d op) j := by
  cases op with
  | cornerReached ct corner => exact newActiveCorner_valAt_mono d ct corner j
  | merge dest source => exact merge_valAt_mono d dest source j h

theorem applyOp_valAt_nonneg (d : ValenceDecoder) (op : DecOp)
    (h : ∀ i : Nat, 0 ≤ valAt d i) (j : Nat) :
    0 ≤ valAt (applyOp d op) j :=
  le_trans (h j) (applyOp_valAt_mono d op j h)

theorem applyOps_valAt_nonneg (ops : List DecOp) :
    ∀ d : ValenceDecoder, (∀ i : Nat, 0 ≤ valAt d i) → ∀ j : Nat,
      0 ≤ valAt (applyOps d ops) j := by
  induction ops with
  | nil => exact fun d h j => h j
  | cons op rest ih =>
    exact fun d h j => ih (applyOp d op) (applyOp_valAt_nonneg d op h) j

theorem applyOps_take_succ (d : ValenceDecoder) (ops : List DecOp) (j : Nat)
    (hj : j < ops.length) :
    applyOps d (ops.take (j + 1)) =
      applyOp (applyOps d (ops.take j)) (ops.getD j (DecOp.merge 0 0)) := by
  rw [List.take_succ, List.getElem?_eq_getElem hj]
  rw [applyOps, List.foldl_append]
  rw [List.getD_eq_getElem?_getD, List.getElem?_eq_getElem hj]
  rfl

/-- C7: starting from the zero valence table Start creates, every
driver operation (NewActiveCornerReached for any last symbol, or
MergeVertices for any pair) leaves each vertex's valence at least its
previous value, and all valences stay non-negative throughout. -/
theorem valence_monotone (n : Int) (env : StartEnv) (ops : List DecOp)
    (j : Nat) (hj : j < ops.length) (i : Nat) :
    (∀ k : Nat,
      valAt ((Start (SetNumEncodedVertices initDecoder n) env).2) k = 0) ∧
    0 ≤ valAt
        (applyOps ((Start (SetNumEncodedVertices initDecoder n) env).2) (ops.take j)) i ∧
    valAt (applyOps ((Start (SetNumEncodedVertices initDecoder n) env).2) (ops.take j)) i ≤
      valAt (applyOps ((Start (SetNumEncodedVertices initDecoder n) env).2)
        (ops.take (j + 1))) i := by
  have hzero : ∀ k : Nat,
      valAt ((Start (SetNumEncodedVertices initDecoder n) env).2) k = 0 :=
    start_valAt_zero n env
  have hnn : ∀ k : Nat, 0 ≤ valAt
      (applyOps ((Start (SetNumEncodedVertices initDecoder n) env).2) (ops.take j)) k :=
    applyOps_valAt_nonneg (ops.take j) _ (fun k => le_of_eq (hzero k).symm)
  refine ⟨hzero, hnn i, ?_⟩
  rw [applyOps_take_succ _ ops j hj]
  exact applyOp_valAt_mono _ _ i hnn

/-- An environment for witnesses: successful header reads, context 0
carrying two symbols, all other contexts empty. -/
def envW : StartEnv :=
  { baseStartOk := true
    splitRead := some 0
    modeRead := some EDGEBREAKER_VALENCE_MODE_2_7
    varintReads := [(true, 2), (true, 0), (true, 0), (true, 0), (true, 0), (true, 0)]
    symbolReads := [(true, [0, 1]), (true, []), (true, []), (true, []), (true, []),
      (true, [])] }

/-- C7 witness: one merge step on the started state keeps valence 0 of
vertex 0 non-negative and non-decreasing. -/
theorem valence_monotone_witness :
    0 ≤ valAt (applyOps ((Start (SetNumEncodedVertices initDecoder 0) envW).2)
        (List.take 0 [DecOp.merge 0 0])) 0 ∧
    valAt (applyOps ((Start (SetNumEncodedVertices initDecoder 0) envW).2)
        (List.take 0 [DecOp.merge 0 0])) 0 ≤
      valAt (applyOps ((Start (SetNumEncodedVertices initDecoder 0) envW).2)
        (List.take (0 + 1) [DecOp.merge 0 0])) 0 :=
  ⟨(valence_monotone 0 envW [DecOp.merge 0 0] 0 (by decide) 0).2.1,
   (valence_monotone 0 envW [DecOp.merge 0 0] 0 (by decide) 0).2.2⟩

/-! The driver selecting contexts for successive DecodeSymbol calls. -/

/-- One driver step for cursor accounting: the preceding corner
callback has made context c active, and one symbol is decoded. The
fallback value is irrelevant on this path and fixed at 0. -/
def selectAndDecode (d : ValenceDecoder) (c : Nat) : ValenceDecoder :=
  (DecodeSymbol { d with active_context := (c : Int) } 0).2

/-- Run a sequence of context selections, one DecodeSymbol each. -/
def runSelections (d : ValenceDecoder) (sels : List Nat) : ValenceDecoder :=
  sels.foldl selectAndDecode d

theorem selectAndDecode_eq (d : ValenceDecoder) (c : Nat) :
    selectAndDecode d c =
      { d with
        active_context := (c : Int)
        context_counters := d.context_counters.set c (d.context_counters.getD c 0 - 1)
        last_symbol := edge_breaker_symbol_to_topology_id.getD
          ((d.context_symbols.getD c []).getD
            (d.context_counters.getD c 0 - 1).toNat 0) 0 } := by
  unfold selectAndDecode DecodeSymbol
  rw [if_pos (show ¬(((c : Nat) : Int) = -1) by omega)]
  simp

theorem selectAndDecode_symbols (d : ValenceDecoder) (c : Nat) :
    (selectAndDecode d c).context_symbols = d.context_symbols := by
  rw [selectAndDecode_eq]

theorem selectAndDecode_counters_length (d : ValenceDecoder) (c : Nat) :
    (selectAndDecode d c).context_counters.length = d.context_counters.length := by
  rw [selectAndDecode_eq]
  exact List.length_set _ _ _

theorem selectAndDecode_counters_getD (d : ValenceDecoder) (c : Nat)
    (hc : c < d.context_counters.length) (i : Nat) :
    (selectAndDecode d c).context_counters.getD i 0 =
      if i = c then d.context_counters.getD i 0 - 1
      else d.context_counters.getD i 0 := by
  rw [selectAndDecode_eq]
  by_cases h : i = c
  · subst h
    rw [if_pos rfl]
    exact getD_set_self _ _ _ hc
  · rw [if_neg h]
    exact getD_set_ne _ _ _ _ (fun hh => h hh.symm)

theorem runSelections_symbols (sels : List Nat) :
    ∀ d : ValenceDecoder, (runSelections d sels).context_symbols = d.context_symbols := by
  induction sels with
  | nil => exact fun d => rfl
  | cons c rest ih =>
    intro d
    show (runSelections (selectAndDecode d c) rest).context_symbols = _
    rw [ih, selectAndDecode_symbols]

theorem runSelections_counters_getD (sels : List Nat) :
    ∀ d : ValenceDecoder, (∀ c ∈ sels, c < d.context_counters.length) → ∀ i : Nat,
      (runSelections d sels).context_counters.getD i 0 =
        d.context_counters.getD i 0 - (sels.count i : Int) := by
  induction sels with
  | nil =>
    intro d h i
    simp [runSelections]
  | cons c rest ih =>
    intro d h i
    have hc : c < d.context_counters.length := h c (List.mem_cons_self c rest)
    have hrest : ∀ x ∈ rest, x < (selectAndDecode d c).context_counters.length := by
      intro x hx
      rw [selectAndDecode_counters_length]
      exact h x (List.mem_cons_of_mem c hx)
    show (runSelections (selectAndDecode d c) rest).context_counters.getD i 0 = _
    rw [ih (selectAndDecode d c) hrest i, selectAndDecode_counters_getD d c hc i,
      List.count_cons]
    by_cases hic : i = c
    · subst hic
      rw [if_pos rfl]
      simp
      omega
    · rw [if_neg hic]
      have hcne : (c == i) = false := by
        simp
        exact fun hh => hic hh.symm
      rw [hcne]
      simp

theorem start_contexts (d : ValenceDecoder) (env : StartEnv)
    (hb : env.baseStartOk = true) (s : Int) (hs : env.splitRead = some s)
    (hm : env.modeRead = some EDGEBREAKER_VALENCE_MODE_2_7) :
    (Start d env).2.context_symbols =
      (List.range 6).map (fun i => (contextEntry env i).1) ∧
    (Start d env).2.context_counters =
      (List.range 6).map (fun i => (contextEntry env i).2) := by
  rcases env with ⟨b, sr, mr, vr, sy⟩
  simp only at hb hs hm
  subst hb
  subst hs
  subst hm
  constructor <;> simp [Start]

theorem contextEntry_counter_nonneg (env : StartEnv) (i : Nat) :
    0 ≤ (contextEntry env i).2 := by
  simp only [contextEntry]
  by_cases h : 0 < (env.varintReads.getD i (true, 0)).2
  · rw [if_pos h]
    exact Int.natCast_nonneg _
  · rw [if_neg h]

theorem contextEntry_length (env : StartEnv) (i : Nat) :
    ((contextEntry env i).1).length = (contextEntry env i).2.toNat := by
  simp only [contextEntry]
  by_cases h : 0 < (env.varintReads.getD i (true, 0)).2
  · rw [if_pos h]
    simp
  · rw [if_neg h]
    rfl

/-- C2: after a successful Start, along any sequence of DecodeSymbol
calls whose context selections use each context at most as many times
as the symbol count Start stored for it, every per-context cursor is
non-negative at every prefix; moreover whenever a context is selected
its cursor is still positive — so a context whose cursor is already 0
is never the selected one — and the decremented position DecodeSymbol
reads is strictly inside that context's queue. -/
theorem decode_cursor_safety (d0 : ValenceDecoder) (env : StartEnv)
    (hb : env.baseStartOk = true) (s : Int) (hs : env.splitRead = some s)
    (hm : env.modeRead = some EDGEBREAKER_VALENCE_MODE_2_7)
    (sels : List Nat) (hsel : ∀ c ∈ sels, c < 6)
    (hcount : ∀ i : Nat, (sels.count i : Int) ≤ (contextEntry env i).2)
    (j : Nat) (_hj : j ≤ sels.length) :
    (∀ i : Nat,
      0 ≤ (runSelections ((Start d0 env).2) (sels.take j)).context_counters.getD i 0) ∧
    (j < sels.length →
      0 < (runSelections ((Start d0 env).2) (sels.take j)).context_counters.getD
          (sels.getD j 0) 0 ∧
      ((runSelections ((Start d0 env).2) (sels.take j)).context_counters.getD
          (sels.getD j 0) 0 - 1).toNat <
        ((runSelections ((Start d0 env).2) (sels.take j)).context_symbols.getD
          (sels.getD j 0) []).length) := by
  obtain ⟨hsym, hcnt⟩ := start_contexts d0 env hb s hs hm
  have hlen6 : (Start d0 env).2.context_counters.length = 6 := by
    rw [hcnt]
    simp
  have hst : ∀ i : Nat, (Start d0 env).2.context_counters.getD i 0 =
      if i < 6 then (contextEntry env i).2 else 0 := by
    intro i
    rw [hcnt]
    exact getD_map_range _ 6 i 0
  have htake : ∀ c ∈ sels.take j, c < (Start d0 env).2.context_counters.length := by
    intro c hcm
    rw [hlen6]
    exact hsel c (List.mem_of_mem_take hcm)
  have hrun : ∀ i : Nat,
      (runSelections ((Start d0 env).2) (sels.take j)).context_counters.getD i 0 =
        (Start d0 env).2.context_counters.getD i 0 - ((sels.take j).count i : Int) :=
    runSelections_counters_getD (sels.take j) _ htake
  have hcount_take : ∀ i : Nat, (sels.take j).count i ≤ sels.count i :=
    fun i => (List.take_sublist j sels).count_le i
  constructor
  · intro i
    rw [hrun i, hst i]
    by_cases h6 : i < 6
    · rw [if_pos h6]
      have h1 := hcount i
      have h2 := hcount_take i
      omega
    · rw [if_neg h6]
      have hz : (sels.take j).count i = 0 := by
        rw [List.count_eq_zero]
        intro hmem
        exact h6 (hsel i (List.mem_of_mem_take hmem))
      rw [hz]
      simp
  · intro hjlt
    have hceq : sels.getD j 0 = sels.get ⟨j, hjlt⟩ := by
      rw [List.getD_eq_getElem?_getD, List.getElem?_eq_getElem hjlt]
      rfl
    have hcmem : sels.getD j 0 ∈ sels := by
      rw [hceq]
      exact List.get_mem sels j hjlt
    have hc6 : sels.getD j 0 < 6 := hsel _ hcmem
    have hsucc : (sels.take (j + 1)).count (sels.getD j 0) =
        (sels.take j).count (sels.getD j 0) + 1 := by
      rw [List.take_succ, List.getElem?_eq_getElem hjlt, List.count_append]
      have : List.count (sels.getD j 0) (some sels[j]).toList = 1 := by
        rw [hceq]
        simp
      rw [this]
    have hle : ((sels.take (j + 1)).count (sels.getD j 0) : Int) ≤
        (contextEntry env (sels.getD j 0)).2 :=
      le_trans
        (by exact_mod_cast (List.take_sublist (j + 1) sels).count_le (sels.getD j 0))
        (hcount _)
    have hpos : 0 < (runSelections ((Start d0 env).2)
        (sels.take j)).context_counters.getD (sels.getD j 0) 0 := by
      rw [hrun _, hst _, if_pos hc6]
      omega
    refine ⟨hpos, ?_⟩
    rw [runSelections_symbols, hsym, getD_map_range _ 6 _ [], if_pos hc6,
      contextEntry_length]
    rw [hrun _, hst _, if_pos hc6] at hpos ⊢
    omega

/-- C2 witness: with context 0 holding two stored symbols, selecting
context 0 twice keeps cursors non-negative and the second selection
still finds a positive cursor and an in-range queue position. -/
theorem decode_cursor_safety_witness :
    0 ≤ (runSelections ((Start initDecoder envW).2)
        (List.take 1 [0, 0])).context_counters.getD 0 0 ∧
    0 < (runSelections ((Start initDecoder envW).2)
        (List.take 1 [0, 0])).context_counters.getD (List.getD [0, 0] 1 0) 0 :=
  ⟨(decode_cursor_safety initDecoder envW rfl 0 rfl rfl [0, 0] (by decide)
      (fun i => by
        by_cases h : i = 0
        · subst h
          decide
        · have hz : List.count i [0, 0] = 0 := by
            rw [List.count_eq_zero]
            simp [h]
          rw [hz]
          simpa using contextEntry_counter_nonneg envW i)
      1 (by decide)).1 0,
   ((decode_cursor_safety initDecoder envW rfl 0 rfl rfl [0, 0] (by decide)
      (fun i => by
        by_cases h : i = 0
        · subst h
          decide
        · have hz : List.count i [0, 0] = 0 := by
            rw [List.count_eq_zero]
            simp [h]
          rw [hz]
          simpa using contextEntry_counter_nonneg envW i)
      1 (by decide)).2 (by decide)).1⟩

end Draco
